import Mathlib

/-!
# BerkeleyBets — verification of the temporal-feature / scoring pipeline spec

Shallow embedding of the BerkeleyBets data pipeline and serving code:

* the fantasy scoring functions `calculate_batter_fantasy_points` and
  `calculate_pitcher_fantasy_points` (from the MLB architecture document's
  reference implementation);
* the temporal-integrity validator `validate_temporal_integrity` and the
  chronological splitter `create_temporal_splits` (same document);
* the temporal feature computer, cold-start handling and walk-forward
  cross-validation fold generator (modelled from the spec where the
  repository holds only their design description);
* the betting client's `calculatePayout` (client/src/components/PlayerBetting.jsx);
* the backend's `runPythonScript` result handling and the `/api/*/players`
  route handlers (backend/server.js).

Numbers are modelled as `ℚ` (the JavaScript/Python sources use IEEE doubles;
all quantities involved are small enough that the arithmetic identities
proved here coincide with the double computations on the inputs considered).
JavaScript `Math.round` is `⌊x + 1/2⌋` (round half toward +∞), embedded as
`jsRound` below.
-/

namespace BerkeleyBets

/-! ## Scoring engine

Embedded from the fantasy-point reference implementation in the MLB
architecture document (`calculate_batter_fantasy_points`,
`calculate_pitcher_fantasy_points`).  A raw per-game stat record
(`game_stats`, a Python dict) is modelled as a total map from stat name to
rational value. -/

/-- A raw per-event counting-statistic record (`game_stats` dict). -/
def Stats : Type := String → ℚ

/-- The two stat groups with dedicated scoring conventions. -/
inductive Group where
  | batter
  | pitcher
deriving DecidableEq

/-- `calculate_batter_fantasy_points(game_stats)`:
`H*1 + 2B*1 + 3B*2 + HR*4 + RBI*2 + R*2 + SB*2 + BB*1`. -/
def calculate_batter_fantasy_points (s : Stats) : ℚ :=
  s "H" * 1 + s "2B" * 1 + s "3B" * 2 + s "HR" * 4 +
    s "RBI" * 2 + s "R" * 2 + s "SB" * 2 + s "BB" * 1

/-- The ERA-bonus block of `calculate_pitcher_fantasy_points`: with at least
5 innings pitched, `game_era = ER / IP * 9`; `era ≤ 2.00` adds 5, otherwise
`era ≤ 3.00` adds 2 (an `if`/`elif` chain, so at most one tier fires). -/
def pitcher_era_bonus (s : Stats) : ℚ :=
  if 5 ≤ s "IP" then
    if s "ER" / s "IP" * 9 ≤ 2 then 5
    else if s "ER" / s "IP" * 9 ≤ 3 then 2
    else 0
  else 0

/-- `calculate_pitcher_fantasy_points(game_stats)`:
`W*10 + SV*10 + SO*1 + IP*3` plus the ERA bonus. -/
def calculate_pitcher_fantasy_points (s : Stats) : ℚ :=
  s "W" * 10 + s "SV" * 10 + s "SO" * 1 + s "IP" * 3 + pitcher_era_bonus s

/-- `score(raw_stats, group)`: dispatch on the group, as in
`get_position_features` (position `P` uses the pitcher convention, the
position-player groups use the batter convention). -/
def score (g : Group) (s : Stats) : ℚ :=
  match g with
  | .batter => calculate_batter_fantasy_points s
  | .pitcher => calculate_pitcher_fantasy_points s

/-- The declared per-group weight table (stat name, weight). -/
def weight_table (g : Group) : List (String × ℚ) :=
  match g with
  | .batter => [("H", 1), ("2B", 1), ("3B", 2), ("HR", 4),
                ("RBI", 2), ("R", 2), ("SB", 2), ("BB", 1)]
  | .pitcher => [("W", 10), ("SV", 10), ("SO", 1), ("IP", 3)]

/-- The sum of the declared threshold-triggered bonus rules for a group
(batters have none; pitchers have the ERA bonus). -/
def bonus_total (g : Group) (s : Stats) : ℚ :=
  match g with
  | .batter => 0
  | .pitcher => pitcher_era_bonus s

/-- The statistics the declared weight/bonus table may read (the bonus rule
additionally reads `ER` for pitchers). -/
def declared_stats (g : Group) : List String :=
  match g with
  | .batter => ["H", "2B", "3B", "HR", "RBI", "R", "SB", "BB"]
  | .pitcher => ["W", "SV", "SO", "IP", "ER"]

/-- `Σ weight[group][stat] * raw_stats[stat]` over the declared table. -/
def weighted_sum (s : Stats) (table : List (String × ℚ)) : ℚ :=
  (table.map (fun p => p.2 * s p.1)).sum

/-- An everywhere-1 stat record, used to instantiate the scoring theorems. -/
def ex_stats : Stats := fun _ => 1

/-- A stat record agreeing with `ex_stats` on every declared statistic but
differing on the undeclared statistic `"XYZ"`. -/
def ex_stats2 : Stats := fun k => if k = "XYZ" then 37 else 1

/-- A pitcher game line with `IP = 6` and `ER = 2`, whose game ERA
`ER / IP * 9` equals the 3.00 bonus cutoff exactly. -/
def ex_pitcher : Stats :=
  fun k => if k = "IP" then 6 else if k = "ER" then 2 else 0

/-! ## Leakage validator

Embedded from `validate_temporal_integrity(features_df)` in the MLB
architecture document: a row-by-row scan asserting
`feature_cutoff_date < game_date`; the `assert` raises at the first
offending row, so the scan is modelled as `Except` carrying the index of
the row at which it aborted. -/

/-- One row as seen by the validator: the stored feature cutoff
(`max_source_timestamp`) and the label event's date. -/
structure VRow where
  feature_cutoff_date : ℕ
  game_date : ℕ
deriving DecidableEq

/-- The validator's scan from positional index `i`: checks each row's
assertion in order and aborts with the index of the first offending row. -/
def validate_from (i : ℕ) : List VRow → Except ℕ Unit
  | [] => Except.ok ()
  | r :: rest =>
    if r.feature_cutoff_date < r.game_date then validate_from (i + 1) rest
    else Except.error i

/-- `validate_temporal_integrity(features_df)`: iterates the rows and
asserts `feature_data_cutoff < game_date` for each; the first failing
assertion aborts the run. -/
def validate_temporal_integrity (rows : List VRow) : Except ℕ Unit :=
  validate_from 0 rows

/-- Modelled from the spec: `audit(feature_rows) -> [Violation]` returns one
violation (here, the row index) per offending row without aborting.  The
repository's validator is the asserting scan above; this definition follows
the spec's words so the two can be compared. -/
def audit_from (i : ℕ) : List VRow → List ℕ
  | [] => []
  | r :: rest =>
    if r.feature_cutoff_date < r.game_date then audit_from (i + 1) rest
    else i :: audit_from (i + 1) rest

/-- The spec's audit applied from index 0. -/
def audit_spec (rows : List VRow) : List ℕ := audit_from 0 rows

/-- The violations the repository's validator actually reports: none on
success, and only the aborting row's index on failure. -/
def reported_violations (rows : List VRow) : List ℕ :=
  match validate_temporal_integrity rows with
  | Except.ok _ => []
  | Except.error i => [i]

/-- Modelled from the spec: the pipeline must refuse to hand any split to
training while violations exist (a hard gate, not a warning). -/
def hand_to_training (rows : List VRow) (splits : List ℕ × List ℕ) :
    Option (List ℕ × List ℕ) :=
  match validate_temporal_integrity rows with
  | Except.ok _ => some splits
  | Except.error _ => none

/-- The validator succeeds when the audit finds nothing and otherwise aborts
at the first offending row. -/
theorem validate_from_eq_audit_head (rows : List VRow) : ∀ i,
    validate_from i rows =
      match audit_from i rows with
      | [] => Except.ok ()
      | j :: _ => Except.error j := by
  induction rows with
  | nil => intro i; rfl
  | cons r rest ih =>
    intro i
    by_cases h : r.feature_cutoff_date < r.game_date
    · simpa [validate_from, audit_from, h] using ih (i + 1)
    · simp [validate_from, audit_from, h]

/-- A row whose stored cutoff equals its label event's timestamp. -/
def bad_row : VRow := ⟨5, 5⟩

/-- A valid row (cutoff strictly before the label event). -/
def good_row : VRow := ⟨3, 4⟩

/-- The rows used to instantiate the single-offender scenario: exactly one
offending row, at index 1. -/
def ex_rows : List VRow := [good_row, ⟨7, 7⟩, good_row]

/-- C2 (counterexample): the validator does not return one Violation per
offending row — on an input with offending rows at indices 0 and 1 it aborts
at index 0 and reports nothing about index 1, whereas the spec's audit
returns both. -/
theorem validate_not_one_violation_per_offender :
    reported_violations [bad_row, bad_row] ≠ audit_spec [bad_row, bad_row] := by
  decide

/-- C2 (amended): `validate_temporal_integrity` aborts at the first offending
row instead of returning a violation list; on an input whose audit finds
exactly one offending row, it aborts exactly at that row's index, the
reported violation references that row alone, and no split is handed to
training. -/
theorem validate_aborts_at_sole_offender (rows : List VRow) (i : ℕ)
    (h : audit_spec rows = [i]) :
    validate_temporal_integrity rows = Except.error i ∧
    reported_violations rows = [i] ∧
    (∀ p : List ℕ × List ℕ, hand_to_training rows p = none) := by
  have hv : validate_temporal_integrity rows = Except.error i := by
    unfold validate_temporal_integrity
    rw [validate_from_eq_audit_head rows 0]
    unfold audit_spec at h
    rw [h]
  refine ⟨hv, ?_, fun p => ?_⟩
  · simp [reported_violations, hv]
  · simp [hand_to_training, hv]

/-- Witness for C2 (amended): on `ex_rows` the sole offending row is at
index 1, the validator aborts there, and the training gate yields nothing. -/
theorem validate_aborts_at_sole_offender_check :
    validate_temporal_integrity ex_rows = Except.error 1 ∧
    reported_violations ex_rows = [1] ∧
    hand_to_training ex_rows ([0], [2]) = none := by
  have h := validate_aborts_at_sole_offender ex_rows 1 (by decide)
  exact ⟨h.1, h.2.1, h.2.2 ([0], [2])⟩

/-! ## Scoring theorems -/

/-- C4: for every group and raw-stat record, `score(raw_stats, group)` equals
the sum over the declared weight table of `weight[group][stat] *
raw_stats[stat]` plus the declared threshold-triggered bonuses; and two stat
records agreeing on every declared statistic receive the same score, so no
undeclared statistic influences the label. -/
theorem score_weighted_sum_and_noninterference (g : Group) (s t : Stats) :
    score g s = weighted_sum s (weight_table g) + bonus_total g s ∧
    ((∀ k ∈ declared_stats g, s k = t k) → score g s = score g t) := by
  constructor
  · cases g <;>
      simp [score, weighted_sum, weight_table, bonus_total,
        calculate_batter_fantasy_points, calculate_pitcher_fantasy_points] <;>
      ring
  · intro h
    cases g
    · have h1 := h "H" (by simp [declared_stats])
      have h2 := h "2B" (by simp [declared_stats])
      have h3 := h "3B" (by simp [declared_stats])
      have h4 := h "HR" (by simp [declared_stats])
      have h5 := h "RBI" (by simp [declared_stats])
      have h6 := h "R" (by simp [declared_stats])
      have h7 := h "SB" (by simp [declared_stats])
      have h8 := h "BB" (by simp [declared_stats])
      simp only [score, calculate_batter_fantasy_points, h1, h2, h3, h4, h5,
        h6, h7, h8]
    · have h1 := h "W" (by simp [declared_stats])
      have h2 := h "SV" (by simp [declared_stats])
      have h3 := h "SO" (by simp [declared_stats])
      have h4 := h "IP" (by simp [declared_stats])
      have h5 := h "ER" (by simp [declared_stats])
      simp only [score, calculate_pitcher_fantasy_points, pitcher_era_bonus,
        h1, h2, h3, h4, h5]

/-- Witness for C4: the batter score of the all-ones record decomposes into
the weighted sum plus bonuses, and perturbing the undeclared statistic
`"XYZ"` leaves the score unchanged. -/
theorem score_weighted_sum_and_noninterference_check :
    score Group.batter ex_stats =
      weighted_sum ex_stats (weight_table Group.batter) +
        bonus_total Group.batter ex_stats ∧
    score Group.batter ex_stats = score Group.batter ex_stats2 := by
  refine ⟨(score_weighted_sum_and_noninterference Group.batter ex_stats ex_stats2).1, ?_⟩
  exact (score_weighted_sum_and_noninterference Group.batter ex_stats ex_stats2).2
    (by intro k hk; fin_cases hk <;> rfl)

/-- C7: with at least 5 innings pitched, the ERA bonus is a single value from
the mutually exclusive tiers {5, 2, 0}: a game ERA at or below the 2.00
cutoff earns 5, a game ERA equal to the 3.00 cutoff earns exactly 2 (never
both tiers), and the pitcher score adds that one bonus on top of the
declared weighted sum. -/
theorem pitcher_era_bonus_exclusive (s : Stats) (h5 : 5 ≤ s "IP") :
    (pitcher_era_bonus s = 5 ∨ pitcher_era_bonus s = 2 ∨
      pitcher_era_bonus s = 0) ∧
    (s "ER" / s "IP" * 9 ≤ 2 → pitcher_era_bonus s = 5) ∧
    (s "ER" / s "IP" * 9 = 3 → pitcher_era_bonus s = 2) ∧
    calculate_pitcher_fantasy_points s =
      weighted_sum s (weight_table Group.pitcher) + pitcher_era_bonus s := by
  refine ⟨?_, ?_, ?_, ?_⟩
  · unfold pitcher_era_bonus
    rw [if_pos h5]
    split_ifs <;> simp
  · intro h2
    unfold pitcher_era_bonus
    rw [if_pos h5, if_pos h2]
  · intro h3
    unfold pitcher_era_bonus
    rw [if_pos h5, if_neg (by rw [h3]; norm_num), if_pos (by rw [h3])]
  · simp [calculate_pitcher_fantasy_points, weighted_sum, weight_table]
    ring

/-- Witness for C7: `ex_pitcher` has 6 innings pitched and a game ERA of
exactly 3.00, the bonus cutoff, and receives the tier-2 bonus exactly once. -/
theorem pitcher_era_bonus_exclusive_check :
    pitcher_era_bonus ex_pitcher = 2 := by
  have h5 : (5 : ℚ) ≤ ex_pitcher "IP" := by norm_num [ex_pitcher]
  exact (pitcher_era_bonus_exclusive ex_pitcher h5).2.2.1
    (by rw [show ex_pitcher "ER" = 2 from rfl, show ex_pitcher "IP" = 6 from rfl]
        norm_num)

/-! ## Split generator

Embedded from `create_temporal_splits(player_game_logs)` in the MLB
architecture document: sort the games by date, skip the first 10 (cold
start), then split the remainder 80/20 by index.  `int(len(valid) * 0.8)`
on IEEE doubles equals `⌊4·len/5⌋` for every list length arising here
(the double product `len * 0.8` never rounds below an attained integer),
so the split index is embedded as `4 * n / 5` in `ℕ`.  pandas'
`sort_values('Date')` is modelled by insertion sort on the date key; the
theorems below depend only on the sortedness of its output. -/

/-- One game-log row as the splitter sees it: its date and an identifying
payload. -/
structure Game where
  date : ℕ
  gid : ℕ
deriving DecidableEq

/-- The date ordering used by `sort_values('Date')`. -/
def dateLE (a b : Game) : Prop := a.date ≤ b.date

instance : DecidableRel dateLE := fun a b =>
  inferInstanceAs (Decidable (a.date ≤ b.date))

instance : IsTotal Game dateLE := ⟨fun a b => Nat.le_total a.date b.date⟩

instance : IsTrans Game dateLE := ⟨fun _ _ _ h1 h2 => Nat.le_trans h1 h2⟩

/-- `create_temporal_splits(player_game_logs)`: sort by date, drop the first
10 games, split the valid remainder at index `int(len * 0.8)` into
`(train_games, test_games)`. -/
def create_temporal_splits (logs : List Game) : List Game × List Game :=
  let games := List.insertionSort dateLE logs
  let valid := games.drop 10
  let split_idx := 4 * valid.length / 5
  (valid.take split_idx, valid.drop split_idx)

/-- An entity with 11 games (dates 0–10): exactly one post-cold-start
event, too few to fill both partitions of a split. -/
def ex_games : List Game := (List.range 11).map (fun i => ⟨i, i⟩)

/-- C5 (counterexample): an entity with too few post-cold-start events to
fill one full split is not excluded — on an 11-game timeline
`create_temporal_splits` still produces a split, assigning the single
post-cold-start event to the test partition with an empty train partition. -/
theorem splits_do_not_exclude_short_entities :
    (create_temporal_splits ex_games).1 = [] ∧
    (create_temporal_splits ex_games).2 = [⟨10, 10⟩] := by
  decide

/-- C5 (amended): the train partition is exactly the earliest
`⌊0.8 · n⌋` of the `n` post-cold-start events and the test partition is the
trailing remainder, in date order and never shuffled, so every train date is
at most every test date; an entity with too few post-cold-start events
yields a degenerate split (an empty train partition) rather than being
excluded or padded. -/
theorem create_temporal_splits_chronological (logs : List Game) :
    (create_temporal_splits logs).1 ++ (create_temporal_splits logs).2 =
      (List.insertionSort dateLE logs).drop 10 ∧
    (create_temporal_splits logs).1.length =
      4 * ((List.insertionSort dateLE logs).drop 10).length / 5 ∧
    ∀ a ∈ (create_temporal_splits logs).1,
      ∀ b ∈ (create_temporal_splits logs).2, a.date ≤ b.date := by
  have hsorted :
      List.Pairwise dateLE ((List.insertionSort dateLE logs).drop 10) :=
    List.Pairwise.sublist (List.drop_sublist 10 _)
      (List.sorted_insertionSort dateLE logs)
  refine ⟨List.take_append_drop _ _, ?_, ?_⟩
  · have hle : 4 * ((List.insertionSort dateLE logs).drop 10).length / 5 ≤
        ((List.insertionSort dateLE logs).drop 10).length := by
      omega
    simp [create_temporal_splits, List.length_take]
    omega
  · have hsplit : List.Pairwise dateLE
        (((List.insertionSort dateLE logs).drop 10).take
            (4 * ((List.insertionSort dateLE logs).drop 10).length / 5) ++
          ((List.insertionSort dateLE logs).drop 10).drop
            (4 * ((List.insertionSort dateLE logs).drop 10).length / 5)) := by
      rwa [List.take_append_drop]
    exact fun a ha b hb => (List.pairwise_append.1 hsplit).2.2 a ha b hb

/-! ## Walk-forward cross-validation

Modelled from the spec: the walk-forward fold generator (TimeSeriesSplit
with `cv_folds = K` and a configured index gap) is described in the
repository's documents ("TimeSeriesSplit with 3 folds, 5-game gap between
train/validation, expanding window") but not implemented there.  With `n`
events, fold `i` (of `K`) validates on the `test_size = n / (K + 1)` events
starting at `n - (K - i) * test_size` and trains, expanding-window style, on
the events strictly before that start minus the gap.  An infeasible
configuration (no folds, empty validation slice, or a first training window
that the gap would empty) fails fast with `none` (ConfigurationError). -/

/-- One walk-forward fold: exclusive training end index, validation start
index and exclusive validation end index. -/
structure Fold where
  train_end : ℕ
  val_start : ℕ
  val_end : ℕ
deriving DecidableEq

/-- Modelled from the spec: the walk-forward cross-validation fold
generator. -/
def walk_forward_folds (n K gap : ℕ) : Option (List Fold) :=
  let test_size := n / (K + 1)
  if 0 < K ∧ 0 < test_size ∧ gap + 1 ≤ n - K * test_size then
    some ((List.range K).map (fun i =>
      let vs := n - (K - i) * test_size
      { train_end := vs - gap, val_start := vs, val_end := vs + test_size }))
  else none

/-- C6: every fold produced by the walk-forward generator — for any number
of events, any fold count `K` and any configured gap — keeps an index gap
of at least `gap` between its training end and its validation start. -/
theorem walk_forward_folds_gap (n K gap : ℕ) (fs : List Fold)
    (h : walk_forward_folds n K gap = some fs) :
    ∀ f ∈ fs, f.train_end + gap ≤ f.val_start ∧
      gap ≤ f.val_start - f.train_end := by
  unfold walk_forward_folds at h
  simp only [] at h
  split_ifs at h with hc
  obtain ⟨hK, hts, hfeas⟩ := hc
  obtain rfl := Option.some.inj h
  intro f hf
  simp only [List.mem_map, List.mem_range] at hf
  obtain ⟨i, hi, rfl⟩ := hf
  dsimp only
  have hmul : (K - i) * (n / (K + 1)) ≤ K * (n / (K + 1)) :=
    Nat.mul_le_mul_right _ (Nat.sub_le K i)
  set x := (K - i) * (n / (K + 1)) with hx
  set y := K * (n / (K + 1)) with hy
  omega

/-- The folds produced for 30 events, 3 folds, gap 5. -/
def ex_folds : List Fold := [⟨4, 9, 16⟩, ⟨11, 16, 23⟩, ⟨18, 23, 30⟩]

/-- Witness for C6: on 30 events with 3 folds and gap 5, the generator
produces `ex_folds` and the first fold's validation start exceeds its
training end by at least the gap. -/
theorem walk_forward_folds_gap_check :
    walk_forward_folds 30 3 5 = some ex_folds ∧
    (⟨4, 9, 16⟩ : Fold).train_end + 5 ≤ (⟨4, 9, 16⟩ : Fold).val_start :=
  ⟨by decide,
    (walk_forward_folds_gap 30 3 5 ex_folds (by decide) ⟨4, 9, 16⟩ (by decide)).1⟩

/-! ## Temporal feature computer

Modelled from the spec: `compute(entity_id, as_of_index)` — the temporal
feature computer is described in the repository (rolling historical windows,
recent-form window, trend, consistency, recency gap, with features for game
`N` drawn from games `1 .. N-1` only and a minimum-history cold-start
boundary) but its implementation is not under the sources; the definitions
below follow the spec's §4.4 wording.  The spec's
`coefficient_of_variation` (std/mean) is modelled by its square
(variance/mean²) so the development stays in `ℚ`; none of the claims
settled here depends on the numeric value of that aggregate. -/

/-- One raw event: a timestamp and its raw counting statistics. -/
structure Event where
  timestamp : ℕ
  stats : Stats

/-- Per-group `FeatureWindowSpec`: long/short window sizes, minimum history,
and the "good performance" label cutoff used by the recency gap. -/
structure WindowSpec where
  long_window : ℕ
  short_window : ℕ
  min_history : ℕ
  good_cutoff : ℚ

/-- A produced feature row. -/
structure FeatureRow where
  as_of_event_index : ℕ
  feature_vector : List ℚ
  label : ℚ
  max_source_timestamp : ℕ

/-- The last `m` entries of a list (a rolling window). -/
def last_window (m : ℕ) (l : List Event) : List Event :=
  l.drop (l.length - m)

/-- Per-stat rate aggregates (ratios, not totals) over a window. -/
def window_rates (g : Group) (w : List Event) : List ℚ :=
  (declared_stats g).map (fun k => (w.map (fun e => e.stats k)).sum / w.length)

/-- Mean label (score) over a window. -/
def mean_label (g : Group) (w : List Event) : ℚ :=
  (w.map (fun e => score g e.stats)).sum / w.length

/-- Label variance over a window. -/
def var_label (g : Group) (w : List Event) : ℚ :=
  (w.map (fun e => (score g e.stats - mean_label g w) ^ 2)).sum / w.length

/-- `clip(x, 0, 1)`. -/
def clip01 (x : ℚ) : ℚ := max 0 (min 1 x)

/-- `consistency = clip(1 - coefficient_of_variation², 0, 1)` over the long
window (the squared coefficient of variation keeps the value in `ℚ`). -/
def consistency (g : Group) (w : List Event) : ℚ :=
  clip01 (1 - var_label g w / (mean_label g w) ^ 2)

/-- The count of entries since the last entry whose label exceeded the
"good performance" cutoff. -/
def recency_gap (g : Group) (cutoff : ℚ) (prior : List Event) : ℕ :=
  (prior.reverse.takeWhile (fun e => decide (score g e.stats ≤ cutoff))).length

/-- The fixed-shape feature vector computed from the strictly-prior events:
long-window rates, short-window rates, trend (short minus long mean label),
consistency, and the recency gap. -/
def feature_vector_of (cfg : WindowSpec) (g : Group) (prior : List Event) :
    List ℚ :=
  window_rates g (last_window cfg.long_window prior) ++
    window_rates g (last_window cfg.short_window prior) ++
    [mean_label g (last_window cfg.short_window prior) -
        mean_label g (last_window cfg.long_window prior),
      consistency g (last_window cfg.long_window prior),
      (recency_gap g cfg.good_cutoff prior : ℚ)]

/-- Modelled from the spec: `compute(entity_id, as_of_index) ->
FeatureRow | ColdStart` with `prior = timeline[0 : as_of_index]`; `none`
models `ColdStart` when `len(prior) < minimum_history`; otherwise the
feature vector is computed from `prior` alone, the label is the as-of
event's score, and `max_source_timestamp = timestamp(prior[-1])`. -/
def compute (cfg : WindowSpec) (g : Group) (timeline : List Event)
    (as_of : ℕ) : Option FeatureRow :=
  let prior := timeline.take as_of
  if prior.length < cfg.min_history then none
  else some
    { as_of_event_index := as_of
      feature_vector := feature_vector_of cfg g prior
      label := ((timeline[as_of]?).map (fun e => score g e.stats)).getD 0
      max_source_timestamp := ((prior.getLast?).map Event.timestamp).getD 0 }

/-- The EntityTimeline invariant: strictly increasing timestamps. -/
def Chronological (t : List Event) : Prop :=
  List.Pairwise (fun a b => a.timestamp < b.timestamp) t

/-- Modelled from the spec: the caller of `compute` substitutes the declared
group-wide default feature vector on `ColdStart` (rather than zero-filling
or blending). -/
def get_features (cfg : WindowSpec) (g : Group) (group_default : List ℚ)
    (timeline : List Event) (as_of : ℕ) : List ℚ :=
  match compute cfg g timeline as_of with
  | none => group_default
  | some row => row.feature_vector

/-- C1: for every feature row `compute` produces past cold start on a
chronological timeline, `max_source_timestamp` is the timestamp of the last
strictly-prior event (`prior[-1]`) and is strictly earlier than the
timestamp of the event at `as_of_event_index`; and no attribute of the
as-of event is read in computing the feature vector — any timeline with the
same strictly-prior prefix yields the same feature vector and the same
`max_source_timestamp`. -/
theorem compute_temporal_boundary (cfg : WindowSpec) (g : Group)
    (timeline : List Event) (as_of : ℕ) (row : FeatureRow)
    (hmin : 0 < cfg.min_history)
    (hchron : Chronological timeline)
    (hlt : as_of < timeline.length)
    (hrow : compute cfg g timeline as_of = some row) :
    (∃ e, (timeline.take as_of).getLast? = some e ∧
        row.max_source_timestamp = e.timestamp) ∧
    row.max_source_timestamp < (timeline[as_of]).timestamp ∧
    ∀ t2 : List Event, t2.take as_of = timeline.take as_of →
      ∃ row2, compute cfg g t2 as_of = some row2 ∧
        row2.feature_vector = row.feature_vector ∧
        row2.max_source_timestamp = row.max_source_timestamp := by
  unfold compute at hrow
  simp only [] at hrow
  by_cases hcold : (timeline.take as_of).length < cfg.min_history
  · rw [if_pos hcold] at hrow
    exact absurd hrow (by simp)
  · rw [if_neg hcold] at hrow
    obtain rfl := Option.some.inj hrow
    push_neg at hcold
    have hne : timeline.take as_of ≠ [] := by
      intro hnil
      rw [hnil] at hcold
      simp at hcold
      omega
    have hlast : (timeline.take as_of).getLast? =
        some ((timeline.take as_of).getLast hne) :=
      List.getLast?_eq_getLast _ hne
    refine ⟨⟨(timeline.take as_of).getLast hne, hlast, ?_⟩, ?_, ?_⟩
    · simp [hlast]
    · have hmem_take : (timeline.take as_of).getLast hne ∈ timeline.take as_of :=
        List.getLast_mem hne
      have hmem_drop : timeline[as_of] ∈ timeline.drop as_of := by
        have h2 : 0 < (timeline.drop as_of).length := by simp; omega
        have hm : (timeline.drop as_of).get ⟨0, h2⟩ ∈ timeline.drop as_of :=
          List.get_mem _ 0 h2
        have he : (timeline.drop as_of).get ⟨0, h2⟩ = timeline[as_of] := by
          simp [List.get_eq_getElem, List.getElem_drop]
        rwa [he] at hm
      have hpw : List.Pairwise (fun a b => a.timestamp < b.timestamp)
          (timeline.take as_of ++ timeline.drop as_of) := by
        rw [List.take_append_drop]
        exact hchron
      have := (List.pairwise_append.1 hpw).2.2 _ hmem_take _ hmem_drop
      simpa [hlast] using this
    · intro t2 ht2
      have hc2 : compute cfg g t2 as_of = some
          { as_of_event_index := as_of
            feature_vector := feature_vector_of cfg g (timeline.take as_of)
            label := ((t2[as_of]?).map (fun e => score g e.stats)).getD 0
            max_source_timestamp :=
              (((timeline.take as_of).getLast?).map Event.timestamp).getD 0 } := by
        unfold compute
        simp only []
        rw [ht2, if_neg (by omega)]
      exact ⟨_, hc2, rfl, rfl⟩

/-- The config used to instantiate the feature-computer theorems:
windows 15/5, minimum history 3, good-performance cutoff 10. -/
def ex_cfg : WindowSpec := ⟨15, 5, 3, 10⟩

/-- A concrete event with the given timestamp and an all-ones stat line. -/
def ex_event (ts : ℕ) : Event := ⟨ts, fun _ => 1⟩

/-- A chronological 4-event timeline. -/
def ex_timeline : List Event :=
  [ex_event 0, ex_event 1, ex_event 2, ex_event 3]

/-- Witness for C1: on the concrete 4-event timeline with minimum history 3
and as-of index 3, `compute` produces a row whose `max_source_timestamp` is
the prior event's timestamp 2, strictly before the as-of event's
timestamp 3, and replacing the as-of suffix leaves the feature vector and
`max_source_timestamp` unchanged. -/
theorem compute_temporal_boundary_check :
    0 < ex_cfg.min_history ∧
    (∃ row, compute ex_cfg Group.batter ex_timeline 3 = some row ∧
      row.max_source_timestamp = 2 ∧
      row.max_source_timestamp < (ex_timeline[3]).timestamp) := by
  have hchron : Chronological ex_timeline := by
    unfold Chronological ex_timeline
    simp [ex_event]
  have hlt : 3 < ex_timeline.length := by simp [ex_timeline]
  have hrow : ∃ row, compute ex_cfg Group.batter ex_timeline 3 = some row := by
    unfold compute
    simp [ex_timeline, ex_cfg]
  obtain ⟨row, hr⟩ := hrow
  have h := compute_temporal_boundary ex_cfg Group.batter ex_timeline 3 row
    (by norm_num [ex_cfg]) hchron hlt hr
  obtain ⟨⟨e, he, hts⟩, hlt2, _⟩ := h
  refine ⟨by norm_num [ex_cfg], row, hr, ?_, hlt2⟩
  have : e = ex_event 2 := by
    have : (ex_timeline.take 3).getLast? = some (ex_event 2) := by
      simp [ex_timeline]
    rw [this] at he
    exact (Option.some.inj he).symm
  rw [hts, this]
  rfl

/-- C3: the cold-start boundary of `compute`: with
`prior = timeline[0 : as_of_index]`, the result is `ColdStart` if and only
if `len(prior) < minimum_history`; in particular `minimum_history - 1`
strictly-prior events yield `ColdStart` — on which the caller substitutes
the declared group-wide default vector — and exactly `minimum_history`
strictly-prior events yield a computed feature row, which the caller passes
through unchanged. -/
theorem compute_cold_start_boundary (cfg : WindowSpec) (g : Group)
    (timeline : List Event) (as_of : ℕ) (d : List ℚ) :
    (compute cfg g timeline as_of = none ↔
      (timeline.take as_of).length < cfg.min_history) ∧
    ((timeline.take as_of).length + 1 = cfg.min_history →
      compute cfg g timeline as_of = none ∧
      get_features cfg g d timeline as_of = d) ∧
    ((timeline.take as_of).length = cfg.min_history →
      ∃ row, compute cfg g timeline as_of = some row ∧
        get_features cfg g d timeline as_of = row.feature_vector) := by
  have hiff : compute cfg g timeline as_of = none ↔
      (timeline.take as_of).length < cfg.min_history := by
    unfold compute
    simp only []
    split_ifs with hcold
    · exact iff_of_true rfl hcold
    · exact iff_of_false (by simp) hcold
  refine ⟨hiff, fun hminus => ?_, fun hexact => ?_⟩
  · have hnone : compute cfg g timeline as_of = none := hiff.2 (by omega)
    exact ⟨hnone, by simp [get_features, hnone]⟩
  · have hsome : compute cfg g timeline as_of ≠ none := by
      intro hn
      have := hiff.1 hn
      omega
    obtain ⟨row, hrow⟩ := Option.ne_none_iff_exists'.1 hsome
    exact ⟨row, hrow, by simp [get_features, hrow]⟩

/-- Witness for C3: with minimum history 3, as-of index 2 (two strictly-
prior events) on the concrete timeline is `ColdStart` and the caller gets
the declared default vector back, while as-of index 3 (three strictly-prior
events) yields a computed feature row. -/
theorem compute_cold_start_boundary_check :
    compute ex_cfg Group.batter ex_timeline 2 = none ∧
    get_features ex_cfg Group.batter [42] ex_timeline 2 = [42] ∧
    (∃ row, compute ex_cfg Group.batter ex_timeline 3 = some row ∧
      get_features ex_cfg Group.batter [42] ex_timeline 3 =
        row.feature_vector) := by
  have h2 := (compute_cold_start_boundary ex_cfg Group.batter ex_timeline 2
    [42]).2.1 (by simp [ex_timeline, ex_cfg])
  have h3 := (compute_cold_start_boundary ex_cfg Group.batter ex_timeline 3
    [42]).2.2 (by simp [ex_timeline, ex_cfg])
  exact ⟨h2.1, h2.2, h3⟩

/-! ## Betting client payout

Embedded from `calculatePayout` in `client/src/components/PlayerBetting.jsx`.
JavaScript `Math.round` is round-half-toward-+∞, i.e. `⌊x + 1/2⌋`. -/

/-- JavaScript `Math.round`. -/
def jsRound (q : ℚ) : ℤ := ⌊q + 1 / 2⌋

/-- The three values of the `betDirection` state. -/
inductive BetDirection where
  | over
  | under
  | exact
deriving DecidableEq

/-- The `if`/`else if` multiplier chain: `exact` bets pay 5.0×, `over` and
`under` bets pay 1.9×.  (The base multiplier 1.8 in the source is always
overwritten, since `betDirection` is one of these three values.) -/
def direction_multiplier (d : BetDirection) : ℚ :=
  match d with
  | .exact => 5
  | .over => 1.9
  | .under => 1.9

/-- The custom-target adjustment applied to the multiplier: with a custom
target entered and a nonzero prediction, `variance = |target − prediction| /
prediction`; a variance above 0.3 adds 1.0 and a variance below 0.1
subtracts 0.3. -/
def variance_adjusted (m : ℚ) (customTarget : Option ℚ) (prediction : ℚ) :
    ℚ :=
  match customTarget with
  | none => m
  | some t =>
    if prediction ≠ 0 then
      if |t - prediction| / prediction > 3 / 10 then m + 1
      else if |t - prediction| / prediction < 1 / 10 then m - 3 / 10
      else m
    else m

/-- `calculatePayout()`: returns 0 with no selected option or a zero bet
amount, else `Math.round(betAmount * multiplier)`. -/
def calculatePayout (hasSelection : Bool) (d : BetDirection)
    (betAmount : ℕ) (customTarget : Option ℚ) (prediction : ℚ) : ℤ :=
  if hasSelection = false ∨ betAmount = 0 then 0
  else jsRound (betAmount *
    variance_adjusted (direction_multiplier d) customTarget prediction)

/-- The net adjustment the custom target contributes to the multiplier. -/
def variance_bonus (customTarget : Option ℚ) (prediction : ℚ) : ℚ :=
  match customTarget with
  | none => 0
  | some t =>
    if prediction ≠ 0 then
      if |t - prediction| / prediction > 3 / 10 then 1
      else if |t - prediction| / prediction < 1 / 10 then -(3 / 10)
      else 0
    else 0

/-- The adjusted multiplier is the base plus the additive bonus. -/
theorem variance_adjusted_eq_add (m : ℚ) (t : Option ℚ) (p : ℚ) :
    variance_adjusted m t p = m + variance_bonus t p := by
  cases t with
  | none => simp [variance_adjusted, variance_bonus]
  | some t =>
    simp only [variance_adjusted, variance_bonus]
    by_cases hp : p ≠ 0
    · rw [if_pos hp, if_pos hp]
      by_cases h1 : |t - p| / p > 3 / 10
      · rw [if_pos h1, if_pos h1]
      · rw [if_neg h1, if_neg h1]
        by_cases h2 : |t - p| / p < 1 / 10
        · rw [if_pos h2, if_pos h2]
          ring
        · rw [if_neg h2, if_neg h2]
          ring
    · rw [if_neg hp, if_neg hp]
      ring

/-- C9: for every selected betting option and positive bet amount,
`calculatePayout` returns `Math.round(betAmount * m)` where `m` is 5.0 for
an exact bet and 1.9 for an over/under bet, increased by 1.0 when a custom
target differs from the prediction by more than 30% relative variance and
decreased by 0.3 when it differs by less than 10%; `m` is always at least
1.6, and with no custom target the payout is exactly `round(1.9 * amount)`
or `round(5.0 * amount)`. -/
theorem calculatePayout_multiplier (d : BetDirection) (amount : ℕ)
    (t : Option ℚ) (p : ℚ) (hamt : 0 < amount) :
    calculatePayout true d amount t p =
      jsRound (amount * (direction_multiplier d + variance_bonus t p)) ∧
    direction_multiplier BetDirection.exact = 5 ∧
    direction_multiplier BetDirection.over = 19 / 10 ∧
    direction_multiplier BetDirection.under = 19 / 10 ∧
    (8 / 5 : ℚ) ≤ direction_multiplier d + variance_bonus t p ∧
    (t = none →
      calculatePayout true d amount t p = jsRound ((19 / 10) * amount) ∨
      calculatePayout true d amount t p = jsRound (5 * amount)) := by
  have hpay : calculatePayout true d amount t p =
      jsRound (amount * (direction_multiplier d + variance_bonus t p)) := by
    unfold calculatePayout
    rw [if_neg (by simp [Nat.pos_iff_ne_zero.1 hamt]), variance_adjusted_eq_add]
  have hbound : (8 / 5 : ℚ) ≤ direction_multiplier d + variance_bonus t p := by
    have hb : variance_bonus t p = 1 ∨ variance_bonus t p = -(3 / 10) ∨
        variance_bonus t p = 0 := by
      cases t with
      | none => simp [variance_bonus]
      | some t =>
        simp only [variance_bonus]
        by_cases hp : p ≠ 0
        · rw [if_pos hp]
          by_cases h1 : |t - p| / p > 3 / 10
          · rw [if_pos h1]
            exact Or.inl rfl
          · rw [if_neg h1]
            by_cases h2 : |t - p| / p < 1 / 10
            · rw [if_pos h2]
              exact Or.inr (Or.inl rfl)
            · rw [if_neg h2]
              exact Or.inr (Or.inr rfl)
        · rw [if_neg hp]
          exact Or.inr (Or.inr rfl)
    cases d <;> rcases hb with hb | hb | hb <;>
      simp [direction_multiplier, hb] <;> norm_num
  refine ⟨hpay, rfl, by norm_num [direction_multiplier],
    by norm_num [direction_multiplier], hbound, fun ht => ?_⟩
  subst ht
  cases d with
  | over =>
    left
    rw [hpay]
    norm_num [direction_multiplier, variance_bonus, mul_comm]
  | under =>
    left
    rw [hpay]
    norm_num [direction_multiplier, variance_bonus, mul_comm]
  | exact =>
    right
    rw [hpay]
    norm_num [direction_multiplier, variance_bonus, mul_comm]

/-- Witness for C9: an over bet of 50 with no custom target on a prediction
of 10 pays out `round(50 * 1.9) = 95`. -/
theorem calculatePayout_multiplier_check :
    calculatePayout true BetDirection.over 50 none 10 = 95 := by
  have h := (calculatePayout_multiplier BetDirection.over 50 none 10
    (by norm_num)).1
  rw [h]
  norm_num [direction_multiplier, variance_bonus, jsRound]

/-! ## Backend API route handlers

Embedded from `runPythonScript` and the `/api/*/players` handlers in
`backend/server.js`.  A spawned script's observable outcome is its exit
code, its trimmed stdout, and the result of `JSON.parse` on that stdout
(`none` when `JSON.parse` throws).  The structure check
`!result || typeof result !== 'object'` accepts exactly JSON arrays and
JSON objects: `null` is falsy and primitives have a non-`'object'`
`typeof`. -/

/-- A parsed JSON value. -/
inductive JsValue where
  | null
  | bool (b : Bool)
  | num (q : ℚ)
  | str (s : String)
  | arr (elems : List JsValue)
  | obj (fields : List (String × JsValue))

/-- The values passing `!(!result || typeof result !== 'object')`. -/
def js_accepts : JsValue → Bool
  | .arr _ => true
  | .obj _ => true
  | _ => false

/-- The observable outcome of one spawned Python script. -/
structure ScriptOutcome where
  exit_code : ℤ
  stdout_trimmed : String
  parsed : Option JsValue

/-- The promise settlement of `runPythonScript` as a function of the
script's outcome: nonzero exit rejects; empty (trimmed) output rejects;
unparseable output rejects; a parsed value failing the structure check
rejects; otherwise the parsed value resolves. -/
def runPythonScript_result (o : ScriptOutcome) : Except String JsValue :=
  if o.exit_code = 0 then
    if o.stdout_trimmed = "" then
      Except.error "Python script returned empty output"
    else
      match o.parsed with
      | none => Except.error "Failed to parse JSON output"
      | some v =>
        if js_accepts v then Except.ok v
        else Except.error "Python script returned invalid data structure"
  else Except.error "Python script failed"

/-- JavaScript property access `result.players` (`none` models
`undefined`). -/
def js_get_field : JsValue → String → Option JsValue
  | .obj fields, k => (fields.find? (fun p => p.1 == k)).map Prod.snd
  | _, _ => none

/-- The response an `/api/*/players` handler sends: HTTP status, the
`success` flag, the `error` message if any, and the `players` field. -/
structure ApiResponse where
  status : ℕ
  success : Bool
  error_msg : Option String
  players : Option JsValue

/-- An `/api/*/players` route handler as a function of the spawned script's
outcome: `await runPythonScript(...)` in a `try` block; on resolution a 200
JSON body with `success: true` and `players: result.players`; on rejection
the `catch` sends a 500 JSON body with `success: false`, the error message,
and an empty `players` array. -/
def players_route (o : ScriptOutcome) : ApiResponse :=
  match runPythonScript_result o with
  | Except.ok result =>
    { status := 200, success := true, error_msg := none,
      players := js_get_field result "players" }
  | Except.error e =>
    { status := 500, success := false, error_msg := some e,
      players := some (JsValue.arr []) }

/-- A script run that exits 0 and prints `[]`: `JSON.parse "[]"` yields the
empty JSON array, which is not a JSON object. -/
def ex_array_outcome : ScriptOutcome := ⟨0, "[]", some (JsValue.arr [])⟩

/-- C10 (counterexample): output that is not parseable as a JSON object does
not always produce a 500 — a script printing the JSON array `[]` passes the
`typeof result !== 'object'` check, and the handler responds 200 with
`success: true` (and an undefined `players` field). -/
theorem players_route_accepts_array_output :
    (¬ ∃ fields, ex_array_outcome.parsed = some (JsValue.obj fields)) ∧
    (players_route ex_array_outcome).status = 200 ∧
    (players_route ex_array_outcome).success = true ∧
    (players_route ex_array_outcome).players = none := by
  refine ⟨?_, rfl, rfl, rfl⟩
  rintro ⟨fields, hf⟩
  simp [ex_array_outcome] at hf

/-- C10 (amended): whenever the spawned script exits nonzero, produces empty
output, produces output `JSON.parse` rejects, or produces output parsing to
`null` or a non-object, non-array value, every `/api/*/players` handler
responds 500 with a JSON body containing `success: false`, an error
message, and an empty `players` array — the rejection is caught, never
propagated.  (Output parsing to a JSON array is the one non-object case
accepted: it yields a 200 success response with no `players` array.) -/
theorem players_route_error_totality (o : ScriptOutcome)
    (h : o.exit_code ≠ 0 ∨ o.stdout_trimmed = "" ∨ o.parsed = none ∨
      (∃ v, o.parsed = some v ∧ js_accepts v = false)) :
    (players_route o).status = 500 ∧
    (players_route o).success = false ∧
    (players_route o).error_msg ≠ none ∧
    (players_route o).players = some (JsValue.arr []) := by
  have herr : ∃ e, runPythonScript_result o = Except.error e := by
    unfold runPythonScript_result
    by_cases hc : o.exit_code = 0
    · rw [if_pos hc]
      by_cases hs : o.stdout_trimmed = ""
      · rw [if_pos hs]
        exact ⟨_, rfl⟩
      · rw [if_neg hs]
        cases hp : o.parsed with
        | none => exact ⟨_, rfl⟩
        | some v =>
          rcases h with h | h | h | ⟨v2, hv2, hacc⟩
          · exact absurd hc h
          · exact absurd hs (by simp [h])
          · rw [hp] at h
            exact absurd h (by simp)
          · rw [hp] at hv2
            obtain rfl := Option.some.inj hv2
            refine ⟨"Python script returned invalid data structure", ?_⟩
            simp [hacc]
    · rw [if_neg hc]
      exact ⟨_, rfl⟩
  obtain ⟨e, he⟩ := herr
  simp [players_route, he]

/-- Witness for C10 (amended): a spawn that exits 1 with no output gets the
500 error response with `success: false` and an empty `players` array. -/
theorem players_route_error_totality_check :
    (players_route ⟨1, "", none⟩).status = 500 ∧
    (players_route ⟨1, "", none⟩).success = false ∧
    (players_route ⟨1, "", none⟩).error_msg ≠ none ∧
    (players_route ⟨1, "", none⟩).players = some (JsValue.arr []) :=
  players_route_error_totality ⟨1, "", none⟩ (Or.inl (by norm_num))

end BerkeleyBets
